import Mathlib

/-!
Verification development for the training pipeline of `src/train.py`
(repository yuohan/nmt-pytorch).

The file shallowly embeds the program's data shaping and control flow:

* the negative-log-likelihood criterion `torch.nn.NLLLoss(ignore_index=pad)`
  with its default `reduction='mean'` semantics (train.py line 75), over `ℚ`;
* the per-step loss computation on the flattened model output and the
  shifted target matrix (train.py lines 96-102);
* the epoch/phase loop of `Trainer.train` with its optimizer, gradient-mode
  and checkpoint side effects represented as an explicit event trace
  (train.py lines 72-114);
* `Trainer.save` and `main`'s end-of-run checkpointing (lines 116-156, 192-194);
* the file-based corpus loading path of `make_datasets` (lines 43-48),
  including the exact tuple semantics of the assignment on line 46;
* the within-batch ordering induced by the `sort_key` of line 61
  (`interleave_keys(len(x.src), len(x.trg))`) under torchtext's stable
  descending within-batch sort (`minibatch.sort(key=sort_key, reverse=True)`).
-/

namespace NMT

/-! ### The criterion: `torch.nn.NLLLoss(ignore_index=ii)` with mean reduction

PyTorch documents `NLLLoss` on log-probability inputs `x : n × C` and targets
`y : n` as `l_n = - w_{y_n} · x_{n, y_n}` with the class weight `w_{y_n} = 0`
whenever `y_n = ignore_index` (weights are otherwise 1 here, since the code
passes no `weight` tensor), and the default mean reduction returns
`(Σ_n l_n) / (Σ_n w_{y_n})`.  We embed this over `ℚ`, one (row, position)
entry being a pair of its log-probability vector and its target id. -/

/-- Per-entry loss term of `NLLLoss(ignore_index=ii)`: zero when the target id
is the ignored (padding) id, otherwise the negated log-probability that the
input assigns to the target id. -/
def nllTerm (ii : ℕ) (p : List ℚ × ℕ) : ℚ :=
  if p.2 = ii then 0 else -(p.1.getD p.2 0)

/-- Per-entry weight of `NLLLoss(ignore_index=ii)`: zero for ignored targets,
one otherwise.  The mean reduction divides by the sum of these weights. -/
def nllWeight (ii : ℕ) (p : List ℚ × ℕ) : ℚ :=
  if p.2 = ii then 0 else 1

/-- `torch.nn.NLLLoss(ignore_index=ii)` with the default `reduction='mean'`,
applied to a batch of log-probability rows `input` and target ids `target`
(train.py line 75 and line 102). -/
def nllLoss (ii : ℕ) (input : List (List ℚ)) (target : List ℕ) : ℚ :=
  ((input.zip target).map (nllTerm ii)).sum /
    ((input.zip target).map (nllWeight ii)).sum

/-! ### The per-step loss of `Trainer.train` (lines 96-102)

`output = self.model(src, trg)` has shape (positions × rows × vocab); the code
flattens it to `(-1, d_out)` and flattens `trg[1:]` (the target matrix without
its initial `<sos>` row) to a vector, then applies the criterion once.  Both
flattenings are row-major over (position, row), i.e. `List.flatten` on the
position-indexed lists below. -/

/-- The scalar loss computed by one iteration of the batch loop
(train.py lines 96-102): the criterion applied to the flattened model output
and the flattened shifted target matrix.  `output` is indexed
position-then-row, `trg` is the raw target matrix indexed position-then-row
whose first row holds the start tokens. -/
def codeStepLoss (ii : ℕ) (output : List (List (List ℚ))) (trg : List (List ℕ)) : ℚ :=
  nllLoss ii output.flatten (trg.drop 1).flatten

/-- Written from the spec's words (§4.2 step 3): the negative-log-likelihood
accumulated at one target position across the batch, excluding rows whose true
target id is the padding id. -/
def specPositionLoss (ii : ℕ) (dists : List (List ℚ)) (tgts : List ℕ) : ℚ :=
  ((dists.zip tgts).map (nllTerm ii)).sum

/-- The number of non-padding rows at one target position (as a rational),
the weight this position contributes to the mean reduction's denominator. -/
def specPositionWeight (ii : ℕ) (dists : List (List ℚ)) (tgts : List ℕ) : ℚ :=
  ((dists.zip tgts).map (nllWeight ii)).sum

/-- Written from the spec's words (§4.2 step 5): the summed per-position loss
divided by `target_length` (the number of compared target positions). -/
def specReportedLoss (ii : ℕ) (output : List (List (List ℚ))) (trg : List (List ℕ)) : ℚ :=
  (((output.zip (trg.drop 1)).map (fun pt => specPositionLoss ii pt.1 pt.2)).sum) /
    (((trg.drop 1).length : ℚ))

/-! ### The epoch loop of `Trainer.train` (lines 72-114) as an event trace

Model parameters live in an abstract type `P`; batches in an abstract type
`B`; vocabularies in an abstract type `V`.  The external autograd runtime is
a pair of functions: the parameter update an optimizer step performs after
backpropagating one batch's loss, and the scalar loss value of one batch at
given parameters.  Every externally visible side effect of the loop becomes
an explicit event. -/

/-- The two phases of each epoch (train.py line 81). -/
inductive Phase where
  | train
  | val
deriving DecidableEq

/-- Whether the phase is the training phase (the Python comparison
`phase == 'train'` of lines 82, 95, 104). -/
def Phase.isTrain : Phase → Bool
  | Phase.train => true
  | Phase.val => false

/-- The hyperparameter dictionary `params` assembled by `Trainer.save`
(train.py lines 120-144): one variant per recognised model class, carrying
exactly the attributes the source reads off the model. -/
inductive CkptParams where
  | seq2seq (name attn_name : String)
      (tgt_sos input_dim output_dim embed_dim hidden_dim attn_dim num_layers : ℕ)
  | transformer (src_pad tgt_pad max_len input_dim output_dim model_dim
      ff_dim num_layers num_heads : ℕ) (drop_prob : ℚ)

/-- The checkpoint bundle `state` written by `torch.save` (train.py
lines 148-156): model weights, hyperparameters, language tags and the two
vocabularies. -/
structure Checkpoint (P V : Type) where
  state_dict : P
  parameter : CkptParams
  src_lang : String
  tgt_lang : String
  src_vocab : V
  tgt_vocab : V

/-- Externally visible effects of the training script: mode switches
(`model.train()` / `model.eval()`), gradient resets, forward passes tagged
with the autograd-enabled flag of `torch.set_grad_enabled`, backward passes,
optimizer steps, and checkpoint writes. -/
inductive Ev (P V : Type) where
  | setMode (training : Bool)
  | zeroGrad
  | forward (gradEnabled : Bool)
  | backward
  | optStep
  | write (path : String) (c : Checkpoint P V)

/-- Whether an event is a checkpoint write. -/
def Ev.isWrite {P V : Type} : Ev P V → Bool
  | Ev.write _ _ => true
  | _ => false

/-- Whether an event is a forward pass with gradients disabled. -/
def Ev.isNoGradForward {P V : Type} : Ev P V → Bool
  | Ev.forward g => !g
  | _ => false

/-- The external autograd/optimizer runtime: `step p b` is the parameter
value after backpropagating batch `b`'s loss at parameters `p` and applying
one `optimizer.step()`; `lossOf p b` is the scalar `loss.item()` of batch `b`
at parameters `p`. -/
structure AutogradCfg (P B : Type) where
  step : P → B → P
  lossOf : P → B → ℚ

/-- Result of running the batch loop of one phase: final parameters, the
accumulated `epoch_loss[phase]`, and the emitted events. -/
structure PhaseOut (P V : Type) where
  params : P
  loss : ℚ
  trace : List (Ev P V)

/-- One iteration of the batch loop (train.py lines 88-108): zero the
gradients, run the model forward under `torch.set_grad_enabled(phase ==
'train')`, and in the training phase backpropagate and step the optimizer.
Returns the new parameters, the scalar loss added to `epoch_loss`, and the
events. -/
def runBatch {P B V : Type} (cfg : AutogradCfg P B) (ph : Phase) (p : P) (b : B) :
    P × ℚ × List (Ev P V) :=
  match ph with
  | Phase.train =>
      (cfg.step p b, cfg.lossOf p b,
        [Ev.zeroGrad, Ev.forward true, Ev.backward, Ev.optStep])
  | Phase.val =>
      (p, cfg.lossOf p b, [Ev.zeroGrad, Ev.forward false])

/-- The batch loop of one phase (train.py lines 87-108), folding `runBatch`
over the phase's data loader and accumulating `epoch_loss[phase]`. -/
def runPhaseBatches {P B V : Type} (cfg : AutogradCfg P B) (ph : Phase) :
    P → List B → PhaseOut P V
  | p, [] => ⟨p, 0, []⟩
  | p, b :: bs =>
      let r := runBatch (V := V) cfg ph p b
      let rest := runPhaseBatches cfg ph r.1 bs
      ⟨rest.params, r.2.1 + rest.loss, r.2.2 ++ rest.trace⟩

/-- One phase of an epoch (train.py lines 81-110): switch the model mode,
run the batch loop, divide the accumulated loss by the loader length. -/
def runPhase {P B V : Type} (cfg : AutogradCfg P B) (ph : Phase) (p : P) (bs : List B) :
    PhaseOut P V :=
  let r := runPhaseBatches (V := V) cfg ph p bs
  ⟨r.params, r.loss / (bs.length : ℚ), Ev.setMode ph.isTrain :: r.trace⟩

/-- Result of one epoch: final parameters, the two reported epoch losses,
and the emitted events. -/
structure EpochOut (P V : Type) where
  params : P
  trainLoss : ℚ
  valLoss : ℚ
  trace : List (Ev P V)

/-- One epoch (train.py lines 78-110): the training phase followed by the
validation phase, the latter starting from the parameters the training phase
produced. -/
def runEpoch {P B V : Type} (cfg : AutogradCfg P B) (p : P) (tB vB : List B) :
    EpochOut P V :=
  let t := runPhase (V := V) cfg Phase.train p tB
  let v := runPhase (V := V) cfg Phase.val t.params vB
  ⟨v.params, t.loss, v.loss, t.trace ++ v.trace⟩

/-- `Trainer.train(epochs, lr)` (train.py lines 72-114): the epoch loop,
returning the final parameters and the full event trace. -/
def trainLoop {P B V : Type} (cfg : AutogradCfg P B) :
    ℕ → P → List B → List B → P × List (Ev P V)
  | 0, p, _, _ => (p, [])
  | n + 1, p, tB, vB =>
      let e := runEpoch (V := V) cfg p tB vB
      let rest := trainLoop cfg n e.params tB vB
      (rest.1, e.trace ++ rest.2)

/-! ### `Trainer.save` and `main` (train.py lines 116-156, 158-194) -/

/-- The model object held by the trainer.  The two constructors `seq2seq` and
`transformer` are the classes built by `main` (lines 181, 189), carrying the
attributes `Trainer.save` reads; `other` stands for a model of any further
class.  `className` below is Python's `type(self.model).__name__`. -/
inductive Arch where
  | seq2seq (name attn_name : String)
      (tgt_sos input_dim output_dim embed_dim hidden_dim attn_dim num_layers : ℕ)
  | transformer (src_pad tgt_pad max_len input_dim output_dim model_dim
      ff_dim num_layers num_heads : ℕ) (drop_prob : ℚ)
  | other (className : String)

/-- Python's `type(self.model).__name__` (train.py line 118). -/
def Arch.className : Arch → String
  | Arch.seq2seq .. => "Seq2seq"
  | Arch.transformer .. => "Transformer"
  | Arch.other c => c

/-- The state `Trainer.save` can read: the model object and its weights
(`self.model.state_dict()`). -/
structure TrainerState (P : Type) where
  model : Arch
  weights : P

/-- The hyperparameter dictionary `Trainer.save` would assemble for a model,
`none` when the model's class is unrecognised (lines 118-146). -/
def Arch.checkpointParams : Arch → Option CkptParams
  | Arch.seq2seq n an ts idim odim ed hd ad nl =>
      some (CkptParams.seq2seq n an ts idim odim ed hd ad nl)
  | Arch.transformer sp tp ml idim odim md fd nl nh dp =>
      some (CkptParams.transformer sp tp ml idim odim md fd nl nh dp)
  | Arch.other _ => none

/-- Rebuilding a model from checkpointed hyperparameters, exactly as the
constructors are invoked in `main` (lines 181, 189): the checkpoint carries
everything needed to reconstruct the architecture. -/
def reconstructModel : CkptParams → Arch
  | CkptParams.seq2seq n an ts idim odim ed hd ad nl =>
      Arch.seq2seq n an ts idim odim ed hd ad nl
  | CkptParams.transformer sp tp ml idim odim md fd nl nh dp =>
      Arch.transformer sp tp ml idim odim md fd nl nh dp

/-- `Trainer.save(model_path, src_lang, tgt_lang, src_field, tgt_field)`
(train.py lines 116-156).  The dispatch on `type(self.model).__name__`
(lines 119, 131) is the constructor match; an unrecognised class name hits
the bare `return` of line 146: no write happens and the trainer state is
returned untouched (the method never assigns to any state). -/
def Trainer.save {P V : Type} (st : TrainerState P)
    (model_path src_lang tgt_lang : String) (src_vocab tgt_vocab : V) :
    TrainerState P × List (Ev P V) :=
  match st.model with
  | Arch.seq2seq n an ts idim odim ed hd ad nl =>
      (st, [Ev.write model_path
        ⟨st.weights, CkptParams.seq2seq n an ts idim odim ed hd ad nl,
          src_lang, tgt_lang, src_vocab, tgt_vocab⟩])
  | Arch.transformer sp tp ml idim odim md fd nl nh dp =>
      (st, [Ev.write model_path
        ⟨st.weights, CkptParams.transformer sp tp ml idim odim md fd nl nh dp,
          src_lang, tgt_lang, src_vocab, tgt_vocab⟩])
  | Arch.other _ => (st, [])

/-- The `model_params` configuration dictionary loaded from the YAML file and
read by `main` (train.py lines 171-189). -/
structure ModelParams where
  model_name : String
  max_len : ℕ
  model_dim : ℕ
  ff_dim : ℕ
  num_layers : ℕ
  num_heads : ℕ
  drop_prob : ℚ
  attn_name : String
  embed_dim : ℕ
  hidden_dim : ℕ
  attn_dim : ℕ

/-- Model construction in `main` (train.py lines 173-189): a `Transformer`
when `model_name == 'Transformer'`, otherwise a `Seq2seq` (whatever the
name). -/
def buildModel (mp : ModelParams) (tgt_sos src_pad tgt_pad input_dim output_dim : ℕ) :
    Arch :=
  if mp.model_name = "Transformer" then
    Arch.transformer src_pad tgt_pad mp.max_len input_dim output_dim
      mp.model_dim mp.ff_dim mp.num_layers mp.num_heads mp.drop_prob
  else
    Arch.seq2seq mp.model_name mp.attn_name tgt_sos input_dim output_dim
      mp.embed_dim mp.hidden_dim mp.attn_dim mp.num_layers

/-- The event trace of `main` after the data is loaded (train.py
lines 192-194): build the model, run `trainer.train`, then `trainer.save`. -/
def mainTrace {P B V : Type} (cfg : AutogradCfg P B) (mp : ModelParams)
    (tgt_sos src_pad tgt_pad input_dim output_dim : ℕ)
    (src_vocab tgt_vocab : V) (save_path src_lang tgt_lang : String)
    (epochs : ℕ) (tB vB : List B) (p0 : P) : List (Ev P V) :=
  let model := buildModel mp tgt_sos src_pad tgt_pad input_dim output_dim
  let r := trainLoop (V := V) cfg epochs p0 tB vB
  r.2 ++ (Trainer.save ⟨model, r.1⟩ save_path src_lang tgt_lang src_vocab tgt_vocab).2

/-! ### The file-based corpus loading path (train.py lines 41-48)

A corpus line is processed as `pair_line = pair_line.strip().split('\t')`;
the embedding takes the resulting field list as input (Python's
`split('\t')` yields a single-element list for a line with no tab, and never
an empty list).  Line 46 reads

  `src_line, tgt_line = pair_line[0], pair_line[1] if src_first else pair_line[1], pair_line[0]`

Python's conditional expression binds tighter than the tuple comma, so the
right-hand side is the *three*-element tuple
`(pair_line[0], (pair_line[1] if src_first else pair_line[1]), pair_line[0])`,
evaluated left to right, and the statement then unpacks it into two targets. -/

/-- Exceptions the loading path can raise. -/
inductive PyError where
  | indexError
  | valueError
deriving DecidableEq

/-- Python list indexing `l[i]`: `IndexError` when out of range. -/
def pyIndex (l : List String) (i : ℕ) : Except PyError String :=
  match l.get? i with
  | some v => Except.ok v
  | none => Except.error PyError.indexError

/-- The right-hand side tuple of line 46, with Python's evaluation order:
`pair_line[0]`, then the conditional expression (whose two arms are both
`pair_line[1]`), then `pair_line[0]` again — a three-element tuple. -/
def line46Rhs (pair_line : List String) (src_first : Bool) :
    Except PyError (List String) := do
  let a ← pyIndex pair_line 0
  let b ← pyIndex pair_line 1
  let c ← pyIndex pair_line 0
  pure [a, if src_first then b else b, c]

/-- Python tuple unpacking `x, y = t`: `ValueError` unless `t` has exactly
two elements. -/
def unpack2 (vals : List String) : Except PyError (String × String) :=
  match vals with
  | [a, b] => Except.ok (a, b)
  | _ => Except.error PyError.valueError

/-- Processing of one (already split) corpus line, train.py lines 46-48:
evaluate the line-46 assignment, then append the example when both sides are
non-empty (`some pair`), else skip it (`none`). -/
def processFields (src_first : Bool) (pair_line : List String) :
    Except PyError (Option (String × String)) := do
  let rhs ← line46Rhs pair_line src_first
  let (src_line, tgt_line) ← unpack2 rhs
  if src_line ≠ "" ∧ tgt_line ≠ "" then
    pure (some (src_line, tgt_line))
  else
    pure none

/-- The loading loop over the corpus file's (already split) lines, train.py
lines 44-48.  There is no exception handler in `make_datasets` or `main`, so
the first raised exception aborts the run. -/
def loadPairs (src_first : Bool) : List (List String) → Except PyError (List (String × String))
  | [] => Except.ok []
  | fields :: rest => do
      let r ← processFields src_first fields
      let tail ← loadPairs src_first rest
      match r with
      | some p => pure (p :: tail)
      | none => pure tail

/-! ### The within-batch ordering of line 61

`BucketIterator.splits(..., sort_key=lambda x: interleave_keys(len(x.src),
len(x.trg)))`.  torchtext's `interleave_keys(a, b)` interleaves the binary
digits of `a` and `b` (each formatted to 16 bits) and reads the result as a
binary number.  Line 61 passes no `sort` or `sort_within_batch` argument, so
the legacy torchtext defaults apply: the train iterator (`train=True`) gets
`sort=False, sort_within_batch=False` and applies no within-batch sort at
all, while the validation iterator (`train=False`) gets
`sort=True, sort_within_batch=True`.  For the validation iterator,
`Iterator.data()` runs Python's stable ascending
`sorted(dataset, key=sort_key)`, `create_batches` cuts the sorted data into
contiguous chunks of `batch_size`, and `Iterator.__iter__` then executes the
`if self.sort: minibatch.reverse()` branch, reversing each chunk.  The
emitted validation batches are therefore the reversed contiguous chunks of
the stably ascending-sorted corpus. -/

/-- Bit `i` of the natural number `n`. -/
def nbit (i n : ℕ) : ℕ := n / 2 ^ i % 2

/-- torchtext's `interleave_keys(a, b)`: digit `i` of `a` lands at binary
position `2*i+1` and digit `i` of `b` at position `2*i` (for values below
`2^16`, as produced by `format(x, '016b')`). -/
def interleave_keys (a b : ℕ) : ℕ :=
  ((List.range 16).map (fun i => nbit i a * 2 ^ (2 * i + 1) + nbit i b * 2 ^ (2 * i))).sum

/-- A tokenized sentence pair (source sequence, target sequence). -/
abbrev SentPair : Type := List ℕ × List ℕ

/-- The `sort_key` lambda of train.py line 61. -/
def sortKey (x : SentPair) : ℕ := interleave_keys x.1.length x.2.length

/-- Stable insertion of `x` into a list already in non-decreasing key order:
`x` passes over strictly smaller keys and stops before the first key not
smaller than its own, so that equal keys keep their original relative order
when the input is consumed front to back. -/
def insAsc {α : Type} (key : α → ℕ) (x : α) : List α → List α
  | [] => [x]
  | y :: ys => if key y < key x then y :: insAsc key x ys else x :: y :: ys

/-- Stable sort into non-decreasing key order — the semantics of Python's
ascending `sorted(data, key=key)` run by `Iterator.data()`. -/
def sortAsc {α : Type} (key : α → ℕ) : List α → List α
  | [] => []
  | x :: xs => insAsc key x (sortAsc key xs)

/-- torchtext's `batch` generator: cut a list into contiguous chunks of size
`B` (the last chunk may be shorter; `B ≥ 1` in the program, the CLI default
being 128). -/
def chunks {α : Type} (B : ℕ) : List α → List (List α)
  | [] => []
  | x :: xs => (x :: xs.take (B - 1)) :: chunks B (xs.drop (B - 1))
termination_by l => l.length
decreasing_by simp [List.length_drop]; omega

/-- The batches the validation iterator emits under the program's
`BucketIterator.splits` defaults: the corpus stably sorted ascending by the
`sort_key` of line 61, cut into contiguous chunks of `batch_size`, each
minibatch then reversed by the `minibatch.reverse()` branch of
`Iterator.__iter__`. -/
def valBatches (B : ℕ) (data : List SentPair) : List (List SentPair) :=
  (chunks B (sortAsc sortKey data)).map List.reverse

/-- A concrete autograd runtime over `ℕ` parameters and batches, used to
instantiate universally quantified statements at a specific input. -/
def probeCfgA : AutogradCfg ℕ ℕ :=
  ⟨fun p _ => p + 1, fun _ _ => 0⟩

/-- A second concrete autograd runtime with the same parameter-update rule as
`probeCfgA` but a different loss function. -/
def probeCfgB : AutogradCfg ℕ ℕ :=
  ⟨fun p _ => p + 1, fun _ _ => 37⟩

end NMT

namespace NMT

/-- C1.  A (row, position) entry whose true target id is the padding id
contributes exactly zero to the loss (its term and its weight both vanish);
appending further all-padding entries to a batch leaves the computed loss
unchanged; and the loss is invariant under arbitrarily changing the model's
log-probability row at a padding position, so such positions contribute zero
gradient.  This is the behaviour of `NLLLoss(ignore_index=tgt_pad)` as
instantiated on train.py lines 75 and 192. -/
theorem padding_targets_contribute_zero_loss (ii : ℕ)
    (input extra : List (List ℚ)) (target extraT : List ℕ)
    (hlen : input.length = target.length)
    (hpad : ∀ t ∈ extraT, t = ii) :
    nllLoss ii (input ++ extra) (target ++ extraT) = nllLoss ii input target ∧
    (∀ d : List ℚ, nllTerm ii (d, ii) = 0 ∧ nllWeight ii (d, ii) = 0) ∧
    (∀ (pre post : List (List ℚ)) (v w : List ℚ) (tpre tpost : List ℕ),
      tpre.length = pre.length →
      nllLoss ii (pre ++ v :: post) (tpre ++ ii :: tpost) =
        nllLoss ii (pre ++ w :: post) (tpre ++ ii :: tpost)) := by
  refine ⟨?_, ?_, ?_⟩
  · unfold nllLoss
    rw [List.zip_append hlen, List.map_append, List.map_append,
      List.sum_append, List.sum_append]
    have hterm : ((extra.zip extraT).map (nllTerm ii)).sum = 0 := by
      apply List.sum_eq_zero
      intro x hx
      obtain ⟨p, hp, rfl⟩ := List.mem_map.mp hx
      have h2 : p.2 = ii := hpad _ (List.of_mem_zip (a := p.1) (b := p.2) hp).2
      simp [nllTerm, h2]
    have hweight : ((extra.zip extraT).map (nllWeight ii)).sum = 0 := by
      apply List.sum_eq_zero
      intro x hx
      obtain ⟨p, hp, rfl⟩ := List.mem_map.mp hx
      have h2 : p.2 = ii := hpad _ (List.of_mem_zip (a := p.1) (b := p.2) hp).2
      simp [nllWeight, h2]
    rw [hterm, hweight, add_zero, add_zero]
  · intro d
    constructor <;> simp [nllTerm, nllWeight]
  · intro pre post v w tpre tpost hpre
    unfold nllLoss
    rw [List.zip_append hpre.symm, List.zip_append hpre.symm]
    simp only [List.zip_cons_cons, List.map_append, List.map_cons,
      List.sum_append, List.sum_cons]
    simp [nllTerm, nllWeight]

/-- Witness for C1: a concrete batch with one real entry extended by one
all-padding entry; the loss is unchanged. -/
theorem padding_targets_contribute_zero_loss_witness :
    nllLoss 1 ([[(-2 : ℚ)]] ++ [[(-5 : ℚ)]]) ([0] ++ [1]) = nllLoss 1 [[(-2 : ℚ)]] [0] :=
  (padding_targets_contribute_zero_loss 1 [[(-2 : ℚ)]] [[(-5 : ℚ)]] [0] [1]
    rfl (by decide)).1

/-- Zipping two flattened nested lists agrees with flattening the pointwise
zips, when the nested lists match in length level by level. -/
theorem flatten_zip_of_length_eq {α β : Type} {A : List (List α)} {B : List (List β)}
    (h : List.Forall₂ (fun (o : List α) (t : List β) => o.length = t.length) A B) :
    A.flatten.zip B.flatten = ((A.zip B).map (fun p => p.1.zip p.2)).flatten := by
  induction h with
  | nil => rfl
  | cons hab _ ih =>
      simp only [List.flatten_cons, List.zip_cons_cons, List.map_cons]
      rw [List.zip_append hab, ih]

/-- The single flattened criterion call of lines 98-102 decomposes into the
per-target-position accumulation of losses and of non-padding weights. -/
theorem codeStepLoss_position_decomp (ii : ℕ) (output : List (List (List ℚ)))
    (trg : List (List ℕ))
    (h : List.Forall₂ (fun (o : List (List ℚ)) (t : List ℕ) => o.length = t.length)
      output (trg.drop 1)) :
    codeStepLoss ii output trg =
      (((output.zip (trg.drop 1)).map (fun pt => specPositionLoss ii pt.1 pt.2)).sum) /
      (((output.zip (trg.drop 1)).map (fun pt => specPositionWeight ii pt.1 pt.2)).sum) := by
  unfold codeStepLoss nllLoss
  rw [flatten_zip_of_length_eq h, List.map_flatten, List.map_flatten,
    List.sum_flatten, List.sum_flatten]
  simp [List.map_map, Function.comp_def, specPositionLoss, specPositionWeight]

/-- C2.  The loss of one training step — the criterion applied once to the
flattened output and flattened shifted targets (lines 96-102) — accumulates,
for each target position `t` (the positions after the start token, i.e. the
rows of `trg[1:]`), the negative log likelihood of the model's distribution
at position `t` against the true target id at position `t` across the batch,
excluding rows whose true target id is the padding id; the mean reduction
then divides by the accumulated non-padding weight. -/
theorem step_loss_accumulates_per_position (ii : ℕ) (output : List (List (List ℚ)))
    (trg : List (List ℕ))
    (h : List.Forall₂ (fun (o : List (List ℚ)) (t : List ℕ) => o.length = t.length)
      output (trg.drop 1)) :
    codeStepLoss ii output trg =
      (((output.zip (trg.drop 1)).map (fun pt => specPositionLoss ii pt.1 pt.2)).sum) /
      (((output.zip (trg.drop 1)).map (fun pt => specPositionWeight ii pt.1 pt.2)).sum) :=
  codeStepLoss_position_decomp ii output trg h

/-- Witness for C2: one target position, two batch rows, the second row a
padding row. -/
theorem step_loss_accumulates_per_position_witness :
    codeStepLoss 1 [[[(-2 : ℚ)], [(-3 : ℚ)]]] [[7, 7], [0, 1]] =
      ((([[[(-2 : ℚ)], [(-3 : ℚ)]]].zip ([[7, 7], [0, 1]].drop 1)).map
          (fun pt => specPositionLoss 1 pt.1 pt.2)).sum) /
      ((([[[(-2 : ℚ)], [(-3 : ℚ)]]].zip ([[7, 7], [0, 1]].drop 1)).map
          (fun pt => specPositionWeight 1 pt.1 pt.2)).sum) :=
  step_loss_accumulates_per_position 1 [[[(-2 : ℚ)], [(-3 : ℚ)]]] [[7, 7], [0, 1]]
    (List.Forall₂.cons rfl List.Forall₂.nil)

/-- Counterexample to C3 as stated: the step loss the code computes is the
criterion's mean over non-padding entries, not the summed per-position loss
divided by `target_length`.  Here one of the two target positions is padding:
the code yields `3`, the claim's formula `3/2`. -/
theorem step_loss_not_length_normalized :
    codeStepLoss 1 [[[(-3 : ℚ)]], [[(-4 : ℚ)]]] [[9], [0], [1]] ≠
      specReportedLoss 1 [[[(-3 : ℚ)]], [[(-4 : ℚ)]]] [[9], [0], [1]] := by
  have h1 : codeStepLoss 1 [[[(-3 : ℚ)]], [[(-4 : ℚ)]]] [[9], [0], [1]] = 3 := by
    norm_num [codeStepLoss, nllLoss, nllTerm, nllWeight]
  have h2 : specReportedLoss 1 [[[(-3 : ℚ)]], [[(-4 : ℚ)]]] [[9], [0], [1]] = 3 / 2 := by
    norm_num [specReportedLoss, specPositionLoss, nllTerm]
  rw [h1, h2]
  norm_num

/-- Parameter evolution of the batch loop depends only on the optimizer's
update rule, never on the scalar loss values that are accumulated for
reporting. -/
theorem runPhaseBatches_params_indep {P B V : Type} (cfg₁ cfg₂ : AutogradCfg P B)
    (hs : cfg₁.step = cfg₂.step) (ph : Phase) :
    ∀ (p : P) (bs : List B),
      (runPhaseBatches (V := V) cfg₁ ph p bs).params =
        (runPhaseBatches (V := V) cfg₂ ph p bs).params := by
  intro p bs
  induction bs generalizing p with
  | nil => rfl
  | cons b bs ih =>
      cases ph with
      | train =>
          simp only [runPhaseBatches, runBatch, hs]
          exact ih _
      | val =>
          simp only [runPhaseBatches, runBatch]
          exact ih _

/-- Parameter evolution across whole epochs is likewise independent of the
reported loss values. -/
theorem trainLoop_params_indep {P B V : Type} (cfg₁ cfg₂ : AutogradCfg P B)
    (hs : cfg₁.step = cfg₂.step) :
    ∀ (n : ℕ) (p : P) (tB vB : List B),
      (trainLoop (V := V) cfg₁ n p tB vB).1 = (trainLoop (V := V) cfg₂ n p tB vB).1 := by
  intro n
  induction n with
  | zero => intro p tB vB; rfl
  | succ n ih =>
      intro p tB vB
      have hep : (runEpoch (V := V) cfg₁ p tB vB).params =
          (runEpoch (V := V) cfg₂ p tB vB).params := by
        simp only [runEpoch, runPhase]
        rw [runPhaseBatches_params_indep cfg₁ cfg₂ hs Phase.train p tB,
          runPhaseBatches_params_indep cfg₁ cfg₂ hs Phase.val _ vB]
      simp only [trainLoop]
      rw [hep, ih]

/-- C3 (amended).  The scalar a training step adds to the reported epoch loss
is the summed per-position loss divided by the number of non-padding target
entries (the criterion's mean reduction), not by `target_length`; and the
reported loss values have no further effect on training: the parameter
trajectory of the whole loop is unchanged under any change of the scalar loss
function, as long as the optimizer's update rule is the same. -/
theorem step_loss_is_mean_and_reporting_only {P B V : Type} :
    (∀ (cfg₁ cfg₂ : AutogradCfg P B), cfg₁.step = cfg₂.step →
      ∀ (n : ℕ) (p : P) (tB vB : List B),
        (trainLoop (V := V) cfg₁ n p tB vB).1 = (trainLoop (V := V) cfg₂ n p tB vB).1) ∧
    (∀ (ii : ℕ) (output : List (List (List ℚ))) (trg : List (List ℕ)),
      List.Forall₂ (fun (o : List (List ℚ)) (t : List ℕ) => o.length = t.length)
        output (trg.drop 1) →
      codeStepLoss ii output trg =
        (((output.zip (trg.drop 1)).map (fun pt => specPositionLoss ii pt.1 pt.2)).sum) /
        (((output.zip (trg.drop 1)).map (fun pt => specPositionWeight ii pt.1 pt.2)).sum)) :=
  ⟨fun cfg₁ cfg₂ hs => trainLoop_params_indep cfg₁ cfg₂ hs,
    fun ii output trg h => codeStepLoss_position_decomp ii output trg h⟩

/-- Witness for amended C3: two epochs over one-batch loaders with two
runtimes differing only in their loss functions give the same final
parameters, and the mean-normalized decomposition holds at a concrete
step. -/
theorem step_loss_is_mean_and_reporting_only_witness :
    (trainLoop (V := ℕ) probeCfgA 2 0 [5] [6]).1 =
      (trainLoop (V := ℕ) probeCfgB 2 0 [5] [6]).1 ∧
    codeStepLoss 2 [[[(-1 : ℚ)]]] [[4], [0]] =
      ((([[[(-1 : ℚ)]]].zip ([[4], [0]].drop 1)).map
          (fun pt => specPositionLoss 2 pt.1 pt.2)).sum) /
      ((([[[(-1 : ℚ)]]].zip ([[4], [0]].drop 1)).map
          (fun pt => specPositionWeight 2 pt.1 pt.2)).sum) :=
  ⟨(step_loss_is_mean_and_reporting_only (P := ℕ) (B := ℕ) (V := ℕ)).1
      probeCfgA probeCfgB rfl 2 0 [5] [6],
    (step_loss_is_mean_and_reporting_only (P := ℕ) (B := ℕ) (V := ℕ)).2
      2 [[[(-1 : ℚ)]]] [[4], [0]] (List.Forall₂.cons rfl List.Forall₂.nil)⟩

/-- Counterexample to C4 as stated: a corpus line without a tab separator
(split to the single field `"hello"`) is not skipped — `pair_line[1]` raises
`IndexError` and the load aborts, even though a well-formed line follows. -/
theorem malformed_line_aborts_load :
    loadPairs true [["hello"], ["a", "b"]] = Except.error PyError.indexError := rfl

/-- C4 (amended).  A corpus line whose `strip().split('\t')` has fewer than
two fields — in particular any line lacking the tab separator — makes the
file-based loading path raise `IndexError` at `pair_line[1]`, aborting the
run rather than skipping the line. -/
theorem no_separator_raises_index_error (fields : List String) (src_first : Bool)
    (rest : List (List String)) (h : fields.length ≤ 1) :
    loadPairs src_first (fields :: rest) = Except.error PyError.indexError := by
  cases fields with
  | nil => rfl
  | cons a t =>
      cases t with
      | nil => rfl
      | cons b t2 =>
          exfalso
          simp only [List.length_cons] at h
          omega

/-- Witness for amended C4: a one-field line aborts the load. -/
theorem no_separator_raises_index_error_witness :
    loadPairs false [["no-tab-here"]] = Except.error PyError.indexError :=
  no_separator_raises_index_error ["no-tab-here"] false [] (by decide)

/-- Counterexample to C5 as stated: even with `src_first = true`, a
well-formed two-column line does not produce a (source, target) pair — the
line-46 right-hand side is a three-element tuple, so unpacking it into
`src_line, tgt_line` raises `ValueError` and the run aborts. -/
theorem src_first_line_still_raises :
    loadPairs true [["a", "b"]] = Except.error PyError.valueError := rfl

/-- C5 (amended).  For every line with at least two columns the line-46
assignment raises `ValueError` regardless of `src_first`: the conditional
expression binds tighter than the tuple comma, so the right-hand side is the
three-element tuple `(pair_line[0], pair_line[1], pair_line[0])` and the
two-target unpacking fails.  The file-based path therefore never constructs
an example, for either column order. -/
theorem two_column_line_raises_value_error (a b : String) (fs : List String)
    (src_first : Bool) (rest : List (List String)) :
    loadPairs src_first ((a :: b :: fs) :: rest) = Except.error PyError.valueError := by
  cases src_first <;> rfl

/-- Stable ascending insertion permutes the inserted element to the front. -/
theorem insAsc_perm {α : Type} (key : α → ℕ) (x : α) (l : List α) :
    (insAsc key x l).Perm (x :: l) := by
  induction l with
  | nil => exact List.Perm.refl _
  | cons y ys ih =>
      by_cases h : key y < key x
      · simp only [insAsc, if_pos h]
        exact (ih.cons y).trans (List.Perm.swap x y ys)
      · simp only [insAsc, if_neg h]
        exact List.Perm.refl _

/-- The stable ascending sort is a permutation of its input. -/
theorem sortAsc_perm {α : Type} (key : α → ℕ) (l : List α) :
    (sortAsc key l).Perm l := by
  induction l with
  | nil => exact List.Perm.refl _
  | cons x xs ih =>
      exact (insAsc_perm key x (sortAsc key xs)).trans (ih.cons x)

/-- Inserting into a list in non-decreasing key order keeps it in
non-decreasing key order. -/
theorem pairwise_insAsc {α : Type} (key : α → ℕ) (x : α) (l : List α)
    (h : l.Pairwise (fun a b => key a ≤ key b)) :
    (insAsc key x l).Pairwise (fun a b => key a ≤ key b) := by
  induction l with
  | nil => simp [insAsc]
  | cons y ys ih =>
      rw [List.pairwise_cons] at h
      obtain ⟨hy, hys⟩ := h
      by_cases hlt : key y < key x
      · simp only [insAsc, if_pos hlt]
        rw [List.pairwise_cons]
        refine ⟨?_, ih hys⟩
        intro z hz
        rcases List.mem_cons.mp ((insAsc_perm key x ys).mem_iff.mp hz) with rfl | hz
        · exact le_of_lt hlt
        · exact hy z hz
      · simp only [insAsc, if_neg hlt]
        rw [List.pairwise_cons]
        have hxy : key x ≤ key y := le_of_not_lt hlt
        refine ⟨?_, List.pairwise_cons.mpr ⟨hy, hys⟩⟩
        intro z hz
        rcases List.mem_cons.mp hz with rfl | hz
        · exact hxy
        · exact hxy.trans (hy z hz)

/-- The stable ascending sort produces non-decreasing key order. -/
theorem sortAsc_pairwise {α : Type} (key : α → ℕ) (l : List α) :
    (sortAsc key l).Pairwise (fun a b => key a ≤ key b) := by
  induction l with
  | nil => simp [sortAsc]
  | cons x xs ih => exact pairwise_insAsc key x (sortAsc key xs) ih

/-- Filtering one key value through a stable ascending insertion: the
inserted element lands in front of the equal-keyed elements. -/
theorem filter_insAsc {α : Type} (key : α → ℕ) (k : ℕ) (x : α) (l : List α) :
    (insAsc key x l).filter (fun z => key z == k) =
      if key x = k then x :: l.filter (fun z => key z == k)
      else l.filter (fun z => key z == k) := by
  induction l with
  | nil =>
      simp only [insAsc, List.filter_cons, List.filter_nil]
      by_cases hxk : key x = k <;> simp [hxk]
  | cons y ys ih =>
      by_cases hlt : key y < key x
      · simp only [insAsc, if_pos hlt, List.filter_cons]
        rw [ih]
        by_cases hyk : key y = k
        · have hxk : key x ≠ k := by omega
          simp [hyk, hxk]
        · by_cases hxk : key x = k <;> simp [hyk, hxk]
      · simp only [insAsc, if_neg hlt, List.filter_cons]
        by_cases hxk : key x = k <;> by_cases hyk : key y = k <;> simp [hxk, hyk]

/-- Stability of the ascending sort (Python's `sorted`): elements sharing any
key value keep their original relative order. -/
theorem filter_sortAsc {α : Type} (key : α → ℕ) (k : ℕ) (l : List α) :
    (sortAsc key l).filter (fun z => key z == k) = l.filter (fun z => key z == k) := by
  induction l with
  | nil => rfl
  | cons x xs ih =>
      simp only [sortAsc]
      rw [filter_insAsc key k x (sortAsc key xs), ih, List.filter_cons]
      by_cases hxk : key x = k <;> simp [hxk]

/-- Every chunk produced by the batching generator is a sublist of its
input. -/
theorem chunks_sublist {α : Type} (B : ℕ) :
    ∀ (l c : List α), c ∈ chunks B l → c.Sublist l := by
  have main : ∀ (n : ℕ) (l c : List α), l.length ≤ n → c ∈ chunks B l → c.Sublist l := by
    intro n
    induction n with
    | zero =>
        intro l c hl hc
        cases l with
        | nil => simp [chunks] at hc
        | cons x xs => simp at hl
    | succ n ih =>
        intro l c hl hc
        cases l with
        | nil => simp [chunks] at hc
        | cons x xs =>
            simp only [chunks] at hc
            rcases List.mem_cons.mp hc with rfl | hc
            · exact List.Sublist.cons₂ x (List.take_sublist _ xs)
            · have h1 : (xs.drop (B - 1)).length ≤ n := by
                rw [List.length_drop]
                simp only [List.length_cons] at hl
                omega
              exact ((ih _ c h1 hc).trans (List.drop_sublist _ xs)).cons x
  intro l c hc
  exact main l.length l c le_rfl hc

/-- Concatenating the chunks gives back the input: the batches cover the
corpus exactly once. -/
theorem chunks_flatten {α : Type} (B : ℕ) :
    ∀ (l : List α), (chunks B l).flatten = l := by
  have main : ∀ (n : ℕ) (l : List α), l.length ≤ n → (chunks B l).flatten = l := by
    intro n
    induction n with
    | zero =>
        intro l hl
        cases l with
        | nil => simp [chunks]
        | cons x xs => simp at hl
    | succ n ih =>
        intro l hl
        cases l with
        | nil => simp [chunks]
        | cons x xs =>
            simp only [chunks, List.flatten_cons]
            have h1 : (xs.drop (B - 1)).length ≤ n := by
              rw [List.length_drop]
              simp only [List.length_cons] at hl
              omega
            rw [ih _ h1, List.cons_append, List.take_append_drop]
  intro l
  exact main l.length l le_rfl

/-- Reversing each block of a partition permutes the concatenation. -/
theorem flatten_map_reverse_perm {α : Type} (L : List (List α)) :
    ((L.map List.reverse).flatten).Perm L.flatten := by
  induction L with
  | nil => exact List.Perm.refl _
  | cons c L ih =>
      simp only [List.map_cons, List.flatten_cons]
      exact List.Perm.append (List.reverse_perm c) ih

/-- Counterexample to C6 as stated: the `sort_key` of line 61 interleaves the
source length with the *target* length, so an emitted validation batch is not
source-length-descending.  With pairs of (source, target) lengths `(2, 100)`
and `(3, 1)`, the interleaved keys are `5144` and `11`: the ascending sort
puts the `(3, 1)` pair first and the minibatch reversal puts it last, so the
emitted batch lists source lengths `[2, 3]` — increasing. -/
theorem val_batch_not_sorted_by_source_length :
    valBatches 2 [(List.replicate 2 0, List.replicate 100 0),
        (List.replicate 3 0, List.replicate 1 0)] =
      [[(List.replicate 2 0, List.replicate 100 0),
        (List.replicate 3 0, List.replicate 1 0)]] ∧
    ¬ List.Pairwise (fun x y : SentPair => y.1.length ≤ x.1.length)
      [(List.replicate 2 0, List.replicate 100 0),
        (List.replicate 3 0, List.replicate 1 0)] := by
  constructor
  · have hlt : sortKey (List.replicate 3 0, List.replicate 1 0) <
        sortKey (List.replicate 2 0, List.replicate 100 0) := by decide
    have hs : sortAsc sortKey
        [(List.replicate 2 0, List.replicate 100 0),
          (List.replicate 3 0, List.replicate 1 0)] =
        [(List.replicate 3 0, List.replicate 1 0),
          (List.replicate 2 0, List.replicate 100 0)] := by
      simp only [sortAsc, insAsc]
      rw [if_pos hlt]
    have hchunk : chunks 2 [(List.replicate 3 0, List.replicate 1 0),
          (List.replicate 2 0, List.replicate 100 0)] =
        [[(List.replicate 3 0, List.replicate 1 0),
          (List.replicate 2 0, List.replicate 100 0)]] := by
      simp [chunks]
    unfold valBatches
    rw [hs, hchunk]
    rfl
  · decide

/-- C6 (amended).  Under the program's `BucketIterator.splits` defaults the
only within-batch ordering executed is the validation iterator's: each
emitted validation batch is the reverse of a contiguous chunk of the corpus
stably sorted *ascending* by `interleave_keys(source length, target length)`
— the `sort_key` of line 61, mixing both lengths, not source length alone.
Hence within every emitted batch the pairs are in non-increasing interleaved-
key order, the emitted batches jointly cover the corpus exactly once, and
pairs with equal interleaved keys appear within a batch in *reversed*
original relative order (un-reversing each batch's equal-key subsequence
reconstructs the corpus's original order), not preserved order. -/
theorem val_batches_reverse_sorted_by_interleaved_key (B : ℕ) (data : List SentPair) :
    (∀ b ∈ valBatches B data,
      List.Pairwise (fun x y => sortKey y ≤ sortKey x) b) ∧
    ((valBatches B data).flatten).Perm data ∧
    (∀ k : ℕ,
      ((valBatches B data).map
        (fun b => (b.filter (fun x => sortKey x == k)).reverse)).flatten =
        data.filter (fun x => sortKey x == k)) := by
  refine ⟨?_, ?_, ?_⟩
  · intro b hb
    obtain ⟨c, hc, rfl⟩ := List.mem_map.mp hb
    rw [List.pairwise_reverse]
    exact List.Pairwise.sublist (chunks_sublist B _ c hc) (sortAsc_pairwise sortKey data)
  · have h1 := flatten_map_reverse_perm (chunks B (sortAsc sortKey data))
    rw [chunks_flatten] at h1
    exact h1.trans (sortAsc_perm sortKey data)
  · intro k
    unfold valBatches
    simp only [List.map_map, Function.comp_def, List.filter_reverse,
      List.reverse_reverse]
    rw [← List.filter_flatten, chunks_flatten]
    exact filter_sortAsc sortKey k data

/-- Closed form of the training-phase batch loop's event trace. -/
theorem runPhaseBatches_train_trace {P B V : Type} (cfg : AutogradCfg P B) :
    ∀ (p : P) (bs : List B),
      (runPhaseBatches (V := V) cfg Phase.train p bs).trace =
        (bs.map (fun _ => [Ev.zeroGrad, Ev.forward true, Ev.backward,
          Ev.optStep])).flatten := by
  intro p bs
  induction bs generalizing p with
  | nil => rfl
  | cons b bs ih =>
      simp only [runPhaseBatches, runBatch, List.map_cons, List.flatten_cons]
      rw [ih]

/-- Closed form of the validation-phase batch loop: the parameters pass
through unchanged, the loss is the sum of the batch losses at those fixed
parameters, and the trace is a gradient-free forward pass per batch. -/
theorem runPhaseBatches_val_eq {P B V : Type} (cfg : AutogradCfg P B) :
    ∀ (p : P) (bs : List B),
      runPhaseBatches (V := V) cfg Phase.val p bs =
        ⟨p, (bs.map (cfg.lossOf p)).sum,
          (bs.map (fun _ => [Ev.zeroGrad, Ev.forward false])).flatten⟩ := by
  intro p bs
  induction bs generalizing p with
  | nil => simp [runPhaseBatches]
  | cons b bs ih =>
      simp only [runPhaseBatches, runBatch, List.map_cons, List.flatten_cons,
        List.sum_cons]
      rw [ih]

/-- No event of an epoch's trace is a checkpoint write. -/
theorem epoch_trace_no_write {P B V : Type} (cfg : AutogradCfg P B)
    (p : P) (tB vB : List B) :
    ∀ e ∈ (runEpoch (V := V) cfg p tB vB).trace, e.isWrite = false := by
  intro e he
  simp only [runEpoch, runPhase] at he
  rcases List.mem_append.mp he with h | h
  · rcases List.mem_cons.mp h with rfl | h
    · rfl
    · rw [runPhaseBatches_train_trace] at h
      obtain ⟨l, hl, hel⟩ := List.mem_flatten.mp h
      obtain ⟨b, _, rfl⟩ := List.mem_map.mp hl
      simp only [List.mem_cons, List.not_mem_nil, or_false] at hel
      rcases hel with rfl | rfl | rfl | rfl <;> rfl
  · rcases List.mem_cons.mp h with rfl | h
    · rfl
    · rw [runPhaseBatches_val_eq] at h
      obtain ⟨l, hl, hel⟩ := List.mem_flatten.mp h
      obtain ⟨b, _, rfl⟩ := List.mem_map.mp hl
      simp only [List.mem_cons, List.not_mem_nil, or_false] at hel
      rcases hel with rfl | rfl <;> rfl

/-- No event of the whole training loop's trace is a checkpoint write. -/
theorem trainLoop_no_write {P B V : Type} (cfg : AutogradCfg P B)
    (tB vB : List B) :
    ∀ (n : ℕ) (p : P), ∀ e ∈ (trainLoop (V := V) cfg n p tB vB).2,
      e.isWrite = false := by
  intro n
  induction n with
  | zero =>
      intro p e he
      simp [trainLoop] at he
  | succ n ih =>
      intro p e he
      simp only [trainLoop] at he
      rcases List.mem_append.mp he with h | h
      · exact epoch_trace_no_write cfg p tB vB e h
      · exact ih _ e h

/-- C7.  `main` writes exactly one checkpoint bundle, after the entire
training loop's events (no write occurs before or during training), and the
bundle contains the final model weights, hyperparameters from which the model
is reconstructible via its own constructor call, and both vocabularies
together with the language tags (train.py lines 148-156, 192-194). -/
theorem checkpoint_written_once_after_training {P B V : Type}
    (cfg : AutogradCfg P B) (mp : ModelParams)
    (tgt_sos src_pad tgt_pad input_dim output_dim : ℕ)
    (src_vocab tgt_vocab : V) (save_path src_lang tgt_lang : String)
    (epochs : ℕ) (tB vB : List B) (p0 : P) :
    ∃ pr : CkptParams,
      (buildModel mp tgt_sos src_pad tgt_pad input_dim output_dim).checkpointParams
          = some pr ∧
      reconstructModel pr = buildModel mp tgt_sos src_pad tgt_pad input_dim output_dim ∧
      mainTrace cfg mp tgt_sos src_pad tgt_pad input_dim output_dim src_vocab tgt_vocab
          save_path src_lang tgt_lang epochs tB vB p0 =
        (trainLoop (V := V) cfg epochs p0 tB vB).2 ++
          [Ev.write save_path
            ⟨(trainLoop (V := V) cfg epochs p0 tB vB).1, pr,
              src_lang, tgt_lang, src_vocab, tgt_vocab⟩] ∧
      (∀ e ∈ (trainLoop (V := V) cfg epochs p0 tB vB).2, e.isWrite = false) := by
  by_cases h : mp.model_name = "Transformer"
  · refine ⟨CkptParams.transformer src_pad tgt_pad mp.max_len input_dim output_dim
      mp.model_dim mp.ff_dim mp.num_layers mp.num_heads mp.drop_prob,
      ?_, ?_, ?_, fun e he => trainLoop_no_write cfg tB vB epochs p0 e he⟩
    · simp [buildModel, h, Arch.checkpointParams]
    · simp [buildModel, h, reconstructModel]
    · simp [mainTrace, buildModel, h, Trainer.save]
  · refine ⟨CkptParams.seq2seq mp.model_name mp.attn_name tgt_sos input_dim output_dim
      mp.embed_dim mp.hidden_dim mp.attn_dim mp.num_layers,
      ?_, ?_, ?_, fun e he => trainLoop_no_write cfg tB vB epochs p0 e he⟩
    · simp [buildModel, h, Arch.checkpointParams]
    · simp [buildModel, h, reconstructModel]
    · simp [mainTrace, buildModel, h, Trainer.save]

/-- C9.  Every epoch runs the validation pass after the training pass; the
validation pass leaves the model parameters exactly as the training pass
produced them, performs one gradient-disabled forward pass per validation
batch, and performs no backpropagation and no optimizer step. -/
theorem validation_pass_changes_no_parameters {P B V : Type}
    (cfg : AutogradCfg P B) (p : P) (tB vB : List B) :
    (runEpoch (V := V) cfg p tB vB).trace =
      (runPhase (V := V) cfg Phase.train p tB).trace ++
        (runPhase (V := V) cfg Phase.val
          (runPhase (V := V) cfg Phase.train p tB).params vB).trace ∧
    (∀ q : P,
      (runPhase (V := V) cfg Phase.val q vB).params = q ∧
      (runPhase (V := V) cfg Phase.val q vB).trace.countP Ev.isNoGradForward
          = vB.length ∧
      (∀ e ∈ (runPhase (V := V) cfg Phase.val q vB).trace,
        e ≠ Ev.backward ∧ e ≠ Ev.optStep ∧ ∀ g, e = Ev.forward g → g = false)) := by
  refine ⟨rfl, fun q => ⟨?_, ?_, ?_⟩⟩
  · show (runPhaseBatches (V := V) cfg Phase.val q vB).params = q
    rw [runPhaseBatches_val_eq]
  · show ((Ev.setMode false :: (runPhaseBatches (V := V) cfg Phase.val q vB).trace).countP
      Ev.isNoGradForward) = vB.length
    rw [runPhaseBatches_val_eq]
    have hone : (List.countP (Ev.isNoGradForward (P := P) (V := V))
        [Ev.zeroGrad, Ev.forward false]) = 1 := rfl
    have hflat : ∀ bs : List B,
        ((bs.map (fun _ => [Ev.zeroGrad (P := P) (V := V),
          Ev.forward false])).flatten).countP Ev.isNoGradForward = bs.length := by
      intro bs
      induction bs with
      | nil => rfl
      | cons b bs ih =>
          simp only [List.map_cons, List.flatten_cons, List.countP_append, ih,
            List.length_cons, hone]
          omega
    simp only [List.countP_cons, hflat]
    simp [Ev.isNoGradForward]
  · intro e he
    have he' : e = Ev.setMode false ∨
        e ∈ ((vB.map (fun _ => [Ev.zeroGrad (P := P) (V := V),
          Ev.forward false])).flatten) := by
      have : (runPhase (V := V) cfg Phase.val q vB).trace =
          Ev.setMode false :: ((vB.map (fun _ => [Ev.zeroGrad (P := P) (V := V),
            Ev.forward false])).flatten) := by
        show (Ev.setMode Phase.val.isTrain ::
          (runPhaseBatches (V := V) cfg Phase.val q vB).trace) = _
        rw [runPhaseBatches_val_eq]
        rfl
      rw [this] at he
      exact List.mem_cons.mp he
    rcases he' with rfl | h
    · exact ⟨by simp, by simp, fun g hg => by cases hg⟩
    · obtain ⟨l, hl, hel⟩ := List.mem_flatten.mp h
      obtain ⟨b, _, rfl⟩ := List.mem_map.mp hl
      simp only [List.mem_cons, List.not_mem_nil, or_false] at hel
      rcases hel with rfl | rfl
      · exact ⟨by simp, by simp, fun g hg => by cases hg⟩
      · exact ⟨by simp, by simp, fun g hg => by cases hg; rfl⟩

/-- C10.  When the model's class name is neither `'Seq2seq'` nor
`'Transformer'`, `Trainer.save` takes the bare `return` of line 146: it
emits no checkpoint write and hands the trainer state back untouched. -/
theorem unrecognized_model_save_writes_nothing {P V : Type} (st : TrainerState P)
    (model_path src_lang tgt_lang : String) (src_vocab tgt_vocab : V)
    (h1 : st.model.className ≠ "Seq2seq") (h2 : st.model.className ≠ "Transformer") :
    Trainer.save st model_path src_lang tgt_lang src_vocab tgt_vocab =
      (st, ([] : List (Ev P V))) := by
  cases hm : st.model with
  | seq2seq n an ts idim odim ed hd ad nl =>
      rw [hm] at h1
      simp [Arch.className] at h1
  | transformer sp tp ml idim odim md fd nl nh dp =>
      rw [hm] at h2
      simp [Arch.className] at h2
  | other c =>
      simp [Trainer.save, hm]

/-- Witness for C10: saving a trainer holding a model of class `GRU` produces
no write event and returns the state unchanged. -/
theorem unrecognized_model_save_writes_nothing_witness :
    Trainer.save (P := ℕ) (V := ℕ) ⟨Arch.other "GRU", 0⟩ "model.pt" "de" "en" 1 2 =
      (⟨Arch.other "GRU", 0⟩, []) :=
  unrecognized_model_save_writes_nothing ⟨Arch.other "GRU", 0⟩ "model.pt" "de" "en" 1 2
    (by decide) (by decide)

end NMT
